import Mathlib

/-
Verification of the OAuth 2.1 authorization-proxy core of the miro-rust-remote-mcp
server.  The definitions below are a shallow embedding of the Rust sources:

  * base64 (RFC 4648) standard and URL-safe codecs, as used by the `base64` crate
    engines `STANDARD` (padded) and `URL_SAFE_NO_PAD`;
  * `generate_pkce_pair` from src/oauth/pkce.rs;
  * `CookieManager::encrypt` / `decrypt` from src/oauth/cookie_manager.rs,
    with AES-256-GCM abstracted as an AEAD scheme parameter (the cipher itself is
    an external crate; its contract is captured by the `Aead*` predicates and
    realised by an executable ideal scheme used in the witnesses);
  * `callback_handler`, `token_handler` and `extract_client_secret`
    from src/oauth/endpoints.rs;
  * `CodeStorage::store` / `take` from src/oauth/code_storage.rs;
  * `CounterNonceSequence` and `TokenStore::encrypt` from src/auth/token_store.rs;
  * `TokenValidator::validate_token` and `UserInfo::is_expired`
    from src/auth/token_validator.rs, with the LRU cache modelled explicitly
    (most-recently-used first) and the upstream introspection HTTP call
    externalised as an oracle argument.

Machine integers are modelled as Nat with explicit wrap-around where the Rust
code can wrap (u64 counter arithmetic, u64 subtraction in release mode).
Bytes are Nat values, < 256 where it matters.  Randomness (nonces, PKCE
verifier bytes) is externalised as explicit arguments.
-/

set_option maxRecDepth 100000

/-! ### Base64 (RFC 4648), as implemented by the rust base64 crate engines -/

/-- Standard base64 alphabet (RFC 4648 section 4), used by the `STANDARD` engine. -/
def b64StdAlphabet : List Char :=
  "ABCDEFGHIJKLMNOPQRSTUVWXYZabcdefghijklmnopqrstuvwxyz0123456789+/".toList

/-- URL-safe base64 alphabet (RFC 4648 section 5), used by `URL_SAFE_NO_PAD`. -/
def b64UrlAlphabet : List Char :=
  "ABCDEFGHIJKLMNOPQRSTUVWXYZabcdefghijklmnopqrstuvwxyz0123456789-_".toList

/-- Character for a sextet value (values ≥ 64 never occur for byte inputs). -/
def b64Char (alpha : List Char) (n : Nat) : Char := alpha.getD n 'A'

/-- Index of a character in the alphabet; `none` for characters outside it. -/
def b64IndexOf (alpha : List Char) (c : Char) : Option Nat :=
  alpha.findIdx? (fun x => x = c)

/-- Unpadded base64 encoding of a byte list, processing 3-byte groups into
4 sextets, with 2 (resp. 3) characters for a trailing group of 1 (resp. 2)
bytes. -/
def b64EncodeChunks (alpha : List Char) : List Nat → List Char
  | [] => []
  | [b0] => [b64Char alpha (b0 / 4), b64Char alpha (b0 % 4 * 16)]
  | [b0, b1] =>
      [b64Char alpha (b0 / 4), b64Char alpha (b0 % 4 * 16 + b1 / 16),
       b64Char alpha (b1 % 16 * 4)]
  | b0 :: b1 :: b2 :: rest =>
      b64Char alpha (b0 / 4) :: b64Char alpha (b0 % 4 * 16 + b1 / 16) ::
      b64Char alpha (b1 % 16 * 4 + b2 / 64) :: b64Char alpha (b2 % 64) ::
      b64EncodeChunks alpha rest

/-- Number of `=` padding characters appended by a padded base64 encode. -/
def b64PadCount (n : Nat) : Nat :=
  match n % 3 with
  | 0 => 0
  | 1 => 2
  | _ => 1

/-- Padded base64 encoding (the `STANDARD` engine always pads). -/
def b64EncodePad (alpha : List Char) (bs : List Nat) : List Char :=
  b64EncodeChunks alpha bs ++ List.replicate (b64PadCount bs.length) '='

/-- Unpadded base64 decoding.  Rejects invalid characters, a trailing group of
one character, and non-zero trailing bits (the crate engines are configured
with `decode_allow_trailing_bits = false`). -/
def b64DecodeNoPad (alpha : List Char) : List Char → Option (List Nat)
  | [] => some []
  | [c0, c1] =>
      match b64IndexOf alpha c0, b64IndexOf alpha c1 with
      | some s0, some s1 =>
          if s1 % 16 = 0 then some [s0 * 4 + s1 / 16] else none
      | _, _ => none
  | [c0, c1, c2] =>
      match b64IndexOf alpha c0, b64IndexOf alpha c1, b64IndexOf alpha c2 with
      | some s0, some s1, some s2 =>
          if s2 % 4 = 0 then some [s0 * 4 + s1 / 16, s1 % 16 * 16 + s2 / 4]
          else none
      | _, _, _ => none
  | c0 :: c1 :: c2 :: c3 :: rest =>
      match b64IndexOf alpha c0, b64IndexOf alpha c1, b64IndexOf alpha c2,
            b64IndexOf alpha c3, b64DecodeNoPad alpha rest with
      | some s0, some s1, some s2, some s3, some bs =>
          some ((s0 * 4 + s1 / 16) :: (s1 % 16 * 16 + s2 / 4) ::
                (s2 % 4 * 64 + s3) :: bs)
      | _, _, _, _, _ => none
  | [_] => none

/-- Remove the trailing run of `=` characters. -/
def dropTrailingPad (cs : List Char) : List Char :=
  (cs.reverse.dropWhile (fun c => c = '=')).reverse

/-- Padded base64 decoding (the `STANDARD` engine requires canonical padding):
length must be a multiple of 4, at most two trailing `=`, and the remaining
core decodes as unpadded base64 (a `=` elsewhere is an invalid character). -/
def b64DecodePad (alpha : List Char) (cs : List Char) : Option (List Nat) :=
  if cs.length % 4 = 0 then
    let core := dropTrailingPad cs
    if cs.length - core.length ≤ 2 then b64DecodeNoPad alpha core else none
  else none

/-! ### PKCE engine (src/oauth/pkce.rs) -/

/-- PKCE code verifier and challenge pair. -/
structure PkcePair where
  verifier : List Char
  challenge : List Char

/-- `generate_pkce_pair`: base64url-encode (no padding) the 64 random verifier
bytes, then base64url-encode SHA-256 of the verifier string's bytes.  The
random bytes and the SHA-256 function (external `sha2` crate, 32-byte output)
are passed explicitly. -/
def generate_pkce_pair (sha256 : List Nat → List Nat) (verifier_bytes : List Nat) :
    PkcePair :=
  let verifier := b64EncodeChunks b64UrlAlphabet verifier_bytes
  let challenge := b64EncodeChunks b64UrlAlphabet (sha256 (verifier.map Char.toNat))
  ⟨verifier, challenge⟩

/-! ### AEAD abstraction (AES-256-GCM from the aes_gcm / ring crates) -/

/-- An AEAD scheme: `seal key nonce plaintext` produces ciphertext plus tag,
`opn key nonce ciphertext` authenticates and decrypts. -/
structure AeadScheme where
  enc : List Nat → List Nat → List Nat → List Nat
  dec : List Nat → List Nat → List Nat → Option (List Nat)

/-- Decryption inverts encryption under the same key and nonce. -/
def AeadCorrect (A : AeadScheme) : Prop :=
  ∀ k n p, A.dec k n (A.enc k n p) = some p

/-- Sealed output is at least 16 bytes (AES-GCM appends a 16-byte tag). -/
def AeadMinLen (A : AeadScheme) : Prop :=
  ∀ k n p, k.length = 32 → n.length = 12 → 16 ≤ (A.enc k n p).length

/-- Sealed output consists of bytes when the inputs do. -/
def AeadBytes (A : AeadScheme) : Prop :=
  ∀ k n p, (∀ b ∈ k, b < 256) → (∀ b ∈ n, b < 256) → (∀ b ∈ p, b < 256) →
    ∀ b ∈ A.enc k n p, b < 256

/-- Opening a sealed box under a different key of the same length fails. -/
def AeadKeyBinding (A : AeadScheme) : Prop :=
  ∀ k k' n p, k.length = k'.length → k ≠ k' → A.dec k' n (A.enc k n p) = none

/-- Opening a sealed box under a different nonce of the same length fails. -/
def AeadNonceBinding (A : AeadScheme) : Prop :=
  ∀ k n n' p, n.length = n'.length → n ≠ n' → A.dec k n' (A.enc k n p) = none

/-- Overwrite the byte at index `i` with its bitwise complement (the
tamper operation `byte ^= 0xFF`; for a byte value `b < 256` this is `255 - b`). -/
def flipByteAt (i : Nat) (l : List Nat) : List Nat :=
  l.set i (255 - l.getD i 0)

/-- Opening any single-byte corruption of a sealed box fails. -/
def AeadTamper (A : AeadScheme) : Prop :=
  ∀ k n p i, i < (A.enc k n p).length →
    A.dec k n (flipByteAt i (A.enc k n p)) = none

/-- Double every byte (the redundancy making the ideal box tamper-evident). -/
def dupBytes : List Nat → List Nat
  | [] => []
  | b :: rest => b :: b :: dupBytes rest

/-- Undo `dupBytes`, failing unless every pair is intact. -/
def pairsDecode : List Nat → Option (List Nat)
  | [] => some []
  | [_] => none
  | a :: b :: rest =>
      if a = b then (pairsDecode rest).map (fun q => a :: q) else none

/-- Executable ideal AEAD used by the witnesses: the box is the key, the
nonce, then the plaintext with every byte doubled, so correctness, key/nonce
binding and single-byte tamper evidence hold exactly. -/
def idealSeal (k n p : List Nat) : List Nat := k ++ n ++ dupBytes p

/-- Opening for `idealSeal`: check the key-and-nonce header, then undo the
byte doubling. -/
def idealOpn (k n c : List Nat) : Option (List Nat) :=
  if c.take (k.length + n.length) = k ++ n then
    pairsDecode (c.drop (k.length + n.length))
  else none

def idealAead : AeadScheme := ⟨idealSeal, idealOpn⟩

/-! ### Cookie cipher (src/oauth/cookie_manager.rs) -/

/-- `CookieError` from src/oauth/cookie_manager.rs.  The Rust variants carry
display strings; only the constructor identity matters here.
`EncryptionError` exists in the source but is unreachable from `decrypt`. -/
inductive CookieError where
  | SerializationError
  | EncryptionError
  | DecryptionError
  | InvalidFormat
  | Base64Error
deriving DecidableEq

/-- Serde serialization of a cookie payload type (external `serde_json` crate),
passed as an explicit codec. -/
structure SerCodec (α : Type) where
  ser : α → List Nat
  deser : List Nat → Option α

/-- `CookieManager::encrypt`: serialize, seal under the fresh random 12-byte
nonce (externalised argument), emit base64(nonce ‖ ciphertext+tag) with the
`STANDARD` padded engine. -/
def cmEncrypt {α : Type} (A : AeadScheme) (C : SerCodec α)
    (key nonce : List Nat) (data : α) : List Char :=
  b64EncodePad b64StdAlphabet (nonce ++ A.enc key nonce (C.ser data))

/-- `CookieManager::decrypt`: base64-decode, reject lengths below 28
(12-byte nonce + 16-byte tag), split the nonce off, open, deserialize.
Each failure is reported through its own `CookieError` variant, exactly as in
the source.  (The `try_into` of the 12-byte nonce slice cannot fail after the
length check and is modelled by `take`.) -/
def cmDecrypt {α : Type} (A : AeadScheme) (C : SerCodec α)
    (key : List Nat) (encrypted_b64 : List Char) : Except CookieError α :=
  match b64DecodePad b64StdAlphabet encrypted_b64 with
  | none => .error .Base64Error
  | some encrypted =>
    if encrypted.length < 28 then .error .InvalidFormat
    else
      match A.dec key (encrypted.take 12) (encrypted.drop 12) with
      | none => .error .DecryptionError
      | some plaintext =>
        match C.deser plaintext with
        | none => .error .SerializationError
        | some data => .ok data

/-! ### OAuth data types (src/oauth/types.rs) -/

/-- `OAuthState`, the payload of the encrypted state cookie. -/
structure OAuthState where
  state : String
  code_verifier : String
  redirect_uri : String
deriving DecidableEq

/-- `PendingCodeExchange`.  `expires_at : DateTime<Utc>` is modelled as an
integer timestamp. -/
structure PendingCodeExchange where
  code : String
  code_verifier : String
  expires_at : Int
deriving DecidableEq

/-- Query parameters of GET /oauth/callback. -/
structure CallbackParams where
  code : Option String
  state : Option String
  error : Option String
  error_description : Option String

/-- `TokenRequest` (RFC 6749 token request form body). -/
structure TokenRequest where
  grant_type : String
  code : String
  redirect_uri : String
  client_id : String
  client_secret : Option String
  code_verifier : Option String

/-- `RegisteredClient` from src/oauth/types.rs (`created_at` as an integer
timestamp). -/
structure RegisteredClient where
  client_id : String
  client_secret : String
  client_name : String
  redirect_uris : List String
  grant_types : List String
  created_at : Int

/-- `OAuthEndpointError` from src/oauth/endpoints.rs. -/
inductive OAuthEndpointError where
  | InvalidState (msg : String)
  | InvalidRequest (msg : String)
  | OAuthError (msg : String)
  | CookieError (msg : String)
  | Unauthorized (msg : String)
deriving DecidableEq

/-! ### Callback handler (src/oauth/endpoints.rs, callback_handler) -/

/-- The two response ingredients of a successful callback: the encrypted
pending-code cookie value and the `Location` redirect URL.  (The Set-Cookie
attribute strings and the state-cookie clearing are fixed formatting around
these two values.) -/
structure CallbackResponse where
  pending_code_cookie : List Char
  location : String
deriving DecidableEq

/-- `callback_handler`.  Inputs: the AEAD and the two payload codecs, the
cookie key, the fresh nonce used to encrypt the pending-code cookie, the
current time, the query parameters, and the `miro_oauth_state` cookie
extracted from the request headers.  Mirrors the source's control flow:
upstream error first, then state-cookie extraction, decryption, state
comparison, code extraction; on success stores
`PendingCodeExchange { code, verifier, now + 300 }` in an encrypted cookie and
redirects to the caller's redirect_uri with `?code=<code>&state=<state>`. -/
def callback_handler (A : AeadScheme) (CS : SerCodec OAuthState)
    (CP : SerCodec PendingCodeExchange) (key pendingNonce : List Nat)
    (now : Int) (params : CallbackParams) (stateCookie : Option (List Char)) :
    Except OAuthEndpointError CallbackResponse :=
  match params.error with
  | some err =>
      .error (.OAuthError ("Miro OAuth error: " ++ err ++ " - " ++
        params.error_description.getD ""))
  | none =>
    match stateCookie with
    | none => .error (.InvalidState "State cookie not found")
    | some sc =>
      match cmDecrypt A CS key sc with
      | .error _ => .error (.InvalidState "Failed to decrypt state")
      | .ok oauth_state =>
        match params.state with
        | none => .error (.InvalidState "State parameter missing")
        | some state_param =>
          if state_param ≠ oauth_state.state then
            .error (.InvalidState "State parameter mismatch")
          else
            match params.code with
            | none => .error (.InvalidRequest "Authorization code missing")
            | some code =>
              let pending : PendingCodeExchange :=
                ⟨code, oauth_state.code_verifier, now + 300⟩
              .ok ⟨cmEncrypt A CP key pendingNonce pending,
                   oauth_state.redirect_uri ++ "?code=" ++ code ++
                     "&state=" ++ state_param⟩

/-! ### Client registry (src/oauth/dcr.rs) -/

/-- The registry's `HashMap<String, RegisteredClient>` modelled as a partial
map. -/
def ClientRegistry : Type := String → Option RegisteredClient

/-- `ClientRegistry::validate`: look up by id and compare the secret. -/
def registryValidate (r : ClientRegistry) (client_id client_secret : String) :
    Bool :=
  match r client_id with
  | some client => client.client_secret == client_secret
  | none => false

/-! ### Client secret extraction (src/oauth/endpoints.rs, extract_client_secret) -/

/-- Rust `str::split_once(':')`. -/
def splitOnceColon (s : String) : Option (String × String) :=
  match s.toList.findIdx? (fun c => c = ':') with
  | none => none
  | some i => some (String.mk (s.toList.take i), String.mk (s.toList.drop (i + 1)))

def utf8IsCont (b : Nat) : Bool := 128 ≤ b && b < 192

/-- UTF-8 validation/decoding of a byte list (Rust `String::from_utf8`),
rejecting overlong forms, surrogates and out-of-range scalars. -/
def utf8Decode : List Nat → Option (List Char)
  | [] => some []
  | b0 :: rest =>
    if b0 < 128 then (utf8Decode rest).map (fun cs => Char.ofNat b0 :: cs)
    else
      match rest with
      | [] => none
      | b1 :: rest1 =>
        if 194 ≤ b0 && b0 < 224 then
          if utf8IsCont b1 then
            (utf8Decode rest1).map
              (fun cs => Char.ofNat ((b0 - 192) * 64 + (b1 - 128)) :: cs)
          else none
        else
          match rest1 with
          | [] => none
          | b2 :: rest2 =>
            if 224 ≤ b0 && b0 < 240 then
              if (if b0 = 224 then 160 ≤ b1 && b1 < 192
                  else if b0 = 237 then 128 ≤ b1 && b1 < 160
                  else utf8IsCont b1) && utf8IsCont b2 then
                (utf8Decode rest2).map
                  (fun cs => Char.ofNat ((b0 - 224) * 4096 +
                    (b1 - 128) * 64 + (b2 - 128)) :: cs)
              else none
            else
              match rest2 with
              | [] => none
              | b3 :: rest3 =>
                if 240 ≤ b0 && b0 < 245 then
                  if (if b0 = 240 then 144 ≤ b1 && b1 < 192
                      else if b0 = 244 then 128 ≤ b1 && b1 < 144
                      else utf8IsCont b1) && utf8IsCont b2 && utf8IsCont b3 then
                    (utf8Decode rest3).map
                      (fun cs => Char.ofNat ((b0 - 240) * 262144 +
                        (b1 - 128) * 4096 + (b2 - 128) * 64 + (b3 - 128)) :: cs)
                  else none
                else none

/-- `extract_client_secret`: try the `Authorization: Basic` header first,
decoding it with `URL_SAFE_NO_PAD` exactly as the source does; note that a
successfully decoded header without a `:` returns `none` for the whole
function (the source's early-return `?`), while base64 or UTF-8 failure falls
through to the form body's `client_secret`. -/
def extract_client_secret (authorization : Option String)
    (token_request : TokenRequest) : Option String :=
  match authorization with
  | some auth_str =>
    if auth_str.toList.take 6 = "Basic ".toList then
      match b64DecodeNoPad b64UrlAlphabet (auth_str.toList.drop 6) with
      | some decoded_bytes =>
        match utf8Decode decoded_bytes with
        | some decoded_chars =>
          (splitOnceColon (String.mk decoded_chars)).map (fun pr => pr.2)
        | none => token_request.client_secret
      | none => token_request.client_secret
    else token_request.client_secret
  | none => token_request.client_secret

/-- Reference definition of RFC 7617 Basic extraction, for comparison with the
source's behaviour: the credentials are standard base64 **with padding**.
Modelled from the spec: "Extract client_secret from either an HTTP Basic
`Authorization` header (`client_secret_basic`) or the request body". -/
def specBasicSecret (authorization : String) : Option String :=
  if authorization.toList.take 6 = "Basic ".toList then
    match b64DecodePad b64StdAlphabet (authorization.toList.drop 6) with
    | some decoded_bytes =>
      match utf8Decode decoded_bytes with
      | some decoded_chars =>
        (splitOnceColon (String.mk decoded_chars)).map (fun pr => pr.2)
      | none => none
    | none => none
  else none

/-! ### Token handler (src/oauth/endpoints.rs, token_handler) -/

/-- `token_handler`, up to the upstream exchange: grant_type check, client
authentication (DCR secret if present, otherwise the static fallback
client_id), pending-code cookie extraction and decryption, expiry check and
code comparison.  On success it returns the `(code, code_verifier)` pair that
the handler passes to the upstream provider's token endpoint (an external
HTTP call). -/
def token_handler (A : AeadScheme) (CP : SerCodec PendingCodeExchange)
    (key : List Nat) (registry : ClientRegistry) (config_client_id : String)
    (authorization : Option String) (pendingCookie : Option (List Char))
    (req : TokenRequest) (now : Int) :
    Except OAuthEndpointError (String × String) :=
  if req.grant_type ≠ "authorization_code" then
    .error (.InvalidRequest ("Unsupported grant_type: " ++ req.grant_type))
  else
    let client_secret := extract_client_secret authorization req
    let is_valid_client :=
      match client_secret with
      | some secret => registryValidate registry req.client_id secret
      | none => req.client_id == config_client_id
    if !is_valid_client then
      .error (.Unauthorized "Invalid client credentials")
    else
      match pendingCookie with
      | none =>
          .error (.Unauthorized
            "Pending code cookie not found - authorization flow not completed")
      | some pc =>
        match cmDecrypt A CP key pc with
        | .error _ => .error (.Unauthorized "Failed to decrypt pending code")
        | .ok pending_exchange =>
          if now > pending_exchange.expires_at then
            .error (.Unauthorized "Authorization code has expired")
          else if req.code ≠ pending_exchange.code then
            .error (.Unauthorized "Authorization code mismatch")
          else
            .ok (pending_exchange.code, pending_exchange.code_verifier)

/-! ### In-memory pending-code storage (src/oauth/code_storage.rs) -/

/-- The `HashMap<String, PendingCodeExchange>` behind the RwLock, modelled as
a partial map. -/
def CodeStore : Type := String → Option PendingCodeExchange

def emptyCodeStore : CodeStore := fun _ => none

/-- `CodeStorage::store`: insert (replacing any previous value). -/
def CodeStorage.store (m : CodeStore) (code : String) (pending : PendingCodeExchange) :
    CodeStore :=
  fun k => if k = code then some pending else m k

/-- `CodeStorage::take`: remove the entry from the map first (absent key:
early return, map unchanged), then return `none` if the removed entry is past
`expires_at`, else the entry. -/
def CodeStorage.take (m : CodeStore) (code : String) (now : Int) :
    Option PendingCodeExchange × CodeStore :=
  match m code with
  | none => (none, m)
  | some pending =>
      let removed : CodeStore := fun k => if k = code then none else m k
      if now > pending.expires_at then (none, removed) else (some pending, removed)

/-! ### Persistent token store nonces (src/auth/token_store.rs) -/

/-- `CounterNonceSequence`: an in-memory u64 counter. -/
structure CounterNonceSequence where
  counter : Nat

/-- `CounterNonceSequence::new`: the counter starts at zero. -/
def CounterNonceSequence.new : CounterNonceSequence := ⟨0⟩

/-- Big-endian bytes of a u64. -/
def natBeBytes8 (n : Nat) : List Nat :=
  [n / 2 ^ 56 % 256, n / 2 ^ 48 % 256, n / 2 ^ 40 % 256, n / 2 ^ 32 % 256,
   n / 2 ^ 24 % 256, n / 2 ^ 16 % 256, n / 2 ^ 8 % 256, n % 256]

/-- `NonceSequence::advance`: 4 zero bytes followed by the big-endian counter;
the counter then wraps by `wrapping_add(1)`. -/
def CounterNonceSequence.advance (s : CounterNonceSequence) :
    List Nat × CounterNonceSequence :=
  (List.replicate 4 0 ++ natBeBytes8 s.counter, ⟨(s.counter + 1) % 2 ^ 64⟩)

/-- `TokenStore::encrypt`: every call constructs a **fresh**
`CounterNonceSequence::new()` and seals with its first nonce.  The pair
returned is (ciphertext, nonce used), exposing the nonce for analysis. -/
def tokenStoreEncrypt (A : AeadScheme) (key data : List Nat) :
    List Nat × List Nat :=
  let first := CounterNonceSequence.new.advance
  (A.enc key first.1 data, first.1)

/-! ### Bearer token validator (src/auth/token_validator.rs) -/

/-- `UserInfo` of the validator cache. -/
structure CachedUserInfo where
  user_id : String
  team_id : String
  scopes : List String
  cached_at : Nat
deriving DecidableEq

/-- u64 wrapping subtraction (Rust release-mode `now - cached_at`). -/
def u64Sub (a b : Nat) : Nat := (a + 2 ^ 64 - b % 2 ^ 64) % 2 ^ 64

/-- `UserInfo::is_expired`: age strictly greater than the 5-minute TTL. -/
def CachedUserInfo.is_expired (u : CachedUserInfo) (now : Nat) : Bool :=
  u64Sub now u.cached_at > 300

/-- The `LruCache<String, UserInfo>` (capacity 100) as a list ordered most
recently used first. -/
def lruLookup (c : List (String × CachedUserInfo)) (k : String) :
    Option CachedUserInfo :=
  match c.find? (fun e => e.1 = k) with
  | some e => some e.2
  | none => none

def lruErase (c : List (String × CachedUserInfo)) (k : String) :
    List (String × CachedUserInfo) :=
  c.filter (fun e => !(e.1 == k))

/-- `LruCache::get`: on a hit the entry is promoted to most recently used. -/
def lruGet (c : List (String × CachedUserInfo)) (k : String) :
    Option CachedUserInfo × List (String × CachedUserInfo) :=
  match lruLookup c k with
  | none => (none, c)
  | some v => (some v, (k, v) :: lruErase c k)

/-- `LruCache::put`: replace an existing entry, else insert, evicting the
least recently used entry when at capacity 100. -/
def lruPut (c : List (String × CachedUserInfo)) (k : String)
    (v : CachedUserInfo) : List (String × CachedUserInfo) :=
  if (lruLookup c k).isSome then (k, v) :: lruErase c k
  else if c.length = 100 then (k, v) :: c.dropLast
  else (k, v) :: c

/-- Outcome of the upstream introspection HTTP call (external `reqwest`),
as observed by `validate_with_miro`. -/
inductive UpstreamResult where
  | ok (user team scopes : String)
  | unauthorized
  | otherStatus (status : Nat)
  | httpFailed (msg : String)
  | parseFailed (msg : String)

/-- The error values constructed by the validator (`AuthError::TokenInvalid`
and `AuthError::TokenValidationFailed` in the source). -/
inductive ValidatorError where
  | TokenInvalid
  | TokenValidationFailed (msg : String)
deriving DecidableEq

/-- Rust `str::split_whitespace` on the space-separated scope string:
split on runs of spaces, discarding empty words. -/
def splitWSAux : List Char → List Char → List String
  | [], acc => if acc.isEmpty then [] else [String.mk acc.reverse]
  | c :: rest, acc =>
    if c = ' ' then
      if acc.isEmpty then splitWSAux rest []
      else String.mk acc.reverse :: splitWSAux rest []
    else splitWSAux rest (c :: acc)

def splitWhitespace (s : String) : List String := splitWSAux s.toList []

/-- `validate_with_miro`: 401 maps to `TokenInvalid`, any other non-2xx or
transport/parse failure to `TokenValidationFailed`; a 2xx response is parsed
into a `UserInfo` with the space-separated scopes split and
`cached_at = now`. -/
def validate_with_miro (upstream : UpstreamResult) (now : Nat) :
    Except ValidatorError CachedUserInfo :=
  match upstream with
  | .httpFailed msg =>
      .error (.TokenValidationFailed ("HTTP request failed: " ++ msg))
  | .unauthorized => .error .TokenInvalid
  | .otherStatus status =>
      .error (.TokenValidationFailed ("Miro API returned status " ++ toString status))
  | .parseFailed msg =>
      .error (.TokenValidationFailed ("Failed to parse response: " ++ msg))
  | .ok user team scopes =>
      .ok ⟨user, team, splitWhitespace scopes, now⟩

/-- `TokenValidator::validate_token`.  Returns the result, the cache after the
call, and whether the upstream introspection endpoint was called.  Mirrors the
source: cache `get` (promoting); fresh hit returns immediately with no
upstream call; an expired hit is `pop`-ed; a miss or expired entry goes
upstream and a successful result is `put` into the cache. -/
def validate_token (cache : List (String × CachedUserInfo)) (token : String)
    (now : Nat) (upstream : UpstreamResult) :
    Except ValidatorError CachedUserInfo × List (String × CachedUserInfo) × Bool :=
  let g := lruGet cache token
  match g.1 with
  | some user_info =>
    if !(user_info.is_expired now) then (.ok user_info, g.2, false)
    else
      let popped := lruErase g.2 token
      match validate_with_miro upstream now with
      | .error e => (.error e, popped, true)
      | .ok ui => (.ok ui, lruPut popped token ui, true)
  | none =>
    match validate_with_miro upstream now with
    | .error e => (.error e, g.2, true)
    | .ok ui => (.ok ui, lruPut g.2 token ui, true)

/-! ### Concrete instances used by witnesses and counterexamples -/

instance {ε α : Type} [DecidableEq ε] [DecidableEq α] : DecidableEq (Except ε α) :=
  fun x y =>
  match x, y with
  | .ok a, .ok b =>
      if h : a = b then .isTrue (congrArg Except.ok h)
      else .isFalse (fun hc => h (Except.ok.inj hc))
  | .error e, .error f =>
      if h : e = f then .isTrue (congrArg Except.error h)
      else .isFalse (fun hc => h (Except.error.inj hc))
  | .ok _, .error _ => .isFalse (fun hc => Except.noConfusion hc)
  | .error _, .ok _ => .isFalse (fun hc => Except.noConfusion hc)

/-- Identity codec on raw byte lists (a concrete serializable payload). -/
def natIdCodec : SerCodec (List Nat) := ⟨fun l => l, fun l => some l⟩

def strBytes (s : String) : List Nat := s.toList.map Char.toNat

def bytesToStr (bs : List Nat) : String := String.mk (bs.map Char.ofNat)

/-- Split a byte list on a separator byte. -/
def splitOnByte (sep : Nat) : List Nat → List (List Nat)
  | [] => [[]]
  | b :: rest =>
    if b = sep then [] :: splitOnByte sep rest
    else
      match splitOnByte sep rest with
      | [] => [[b]]
      | g :: gs => (b :: g) :: gs

/-- Sign byte plus 8 big-endian magnitude bytes of an integer timestamp. -/
def intBytes9 (n : Int) : List Nat :=
  (if n < 0 then 1 else 0) :: natBeBytes8 n.natAbs

def intOfBytes9 : List Nat → Option Int
  | [s, b0, b1, b2, b3, b4, b5, b6, b7] =>
      let m : Nat :=
        ((((((b0 * 256 + b1) * 256 + b2) * 256 + b3) * 256 + b4) * 256 + b5) *
          256 + b6) * 256 + b7
      if s = 1 then some (-(m : Int)) else some (m : Int)
  | _ => none

/-- Concrete serialization of `OAuthState` for witnesses (pipe-separated). -/
def stateCodec : SerCodec OAuthState :=
  ⟨fun st => strBytes st.state ++ 124 :: strBytes st.code_verifier ++
      124 :: strBytes st.redirect_uri,
   fun bs =>
     match splitOnByte 124 bs with
     | [a, b, c] => some ⟨bytesToStr a, bytesToStr b, bytesToStr c⟩
     | _ => none⟩

/-- Concrete serialization of `PendingCodeExchange` for witnesses. -/
def pendingCodec : SerCodec PendingCodeExchange :=
  ⟨fun p => strBytes p.code ++ 124 :: strBytes p.code_verifier ++
      124 :: intBytes9 p.expires_at,
   fun bs =>
     match splitOnByte 124 bs with
     | [a, b, c] =>
       match intOfBytes9 c with
       | some n => some ⟨bytesToStr a, bytesToStr b, n⟩
       | none => none
     | _ => none⟩

/-- Concrete 32-byte cookie key (the test key of the source's unit tests). -/
def testKey : List Nat := List.replicate 32 42

/-- A different 32-byte key. -/
def testKey2 : List Nat := 7 :: List.replicate 31 42

/-- Concrete 12-byte nonce. -/
def testNonce : List Nat := List.replicate 12 9

/-- Alphabets for which encoding then index lookup round-trips on sextets. -/
def GoodAlpha (alpha : List Char) : Prop :=
  ∀ s : Fin 64, b64IndexOf alpha (b64Char alpha s.val) = some s.val

/-- Alphabets whose encoder never emits the padding character. -/
def PadFreeAlpha (alpha : List Char) : Prop := ∀ n : Nat, b64Char alpha n ≠ '='

/-- Concrete client registry holding one DCR-registered client `c1` with
secret `s1`. -/
def c5Registry : ClientRegistry := fun id =>
  if id = "c1" then
    some ⟨"c1", "s1", "Claude", ["https://app/cb"], ["authorization_code"], 0⟩
  else none

/-! ## Proof layer -/

/-! ### Base64 lemmas -/

theorem b64EncodeChunks_length (alpha : List Char) (l : List Nat) :
    (b64EncodeChunks alpha l).length = (l.length * 4 + 2) / 3 := by
  induction l using b64EncodeChunks.induct alpha with
  | case1 => rfl
  | case2 b0 => simp [b64EncodeChunks]
  | case3 b0 b1 => simp [b64EncodeChunks]
  | case4 b0 b1 b2 rest ih =>
    simp only [b64EncodeChunks, List.length_cons, ih]
    omega

theorem goodAlpha_std : GoodAlpha b64StdAlphabet := by
  intro s
  revert s
  decide

theorem goodAlpha_url : GoodAlpha b64UrlAlphabet := by
  intro s
  revert s
  decide

theorem b64IndexOf_round (alpha : List Char) (ha : GoodAlpha alpha)
    (s : Nat) (h : s < 64) : b64IndexOf alpha (b64Char alpha s) = some s := by
  have hs := ha ⟨s, h⟩
  simpa using hs

theorem b64DecodeNoPad_encode (alpha : List Char) (ha : GoodAlpha alpha)
    (l : List Nat) (hl : ∀ b ∈ l, b < 256) :
    b64DecodeNoPad alpha (b64EncodeChunks alpha l) = some l := by
  induction l using b64EncodeChunks.induct alpha with
  | case1 => rfl
  | case2 b0 =>
    have h0 : b0 < 256 := hl b0 (by simp)
    rw [show b64EncodeChunks alpha [b0] =
      [b64Char alpha (b0 / 4), b64Char alpha (b0 % 4 * 16)] from rfl]
    simp only [b64DecodeNoPad,
      b64IndexOf_round alpha ha (b0 / 4) (by omega),
      b64IndexOf_round alpha ha (b0 % 4 * 16) (by omega)]
    rw [if_pos (by omega)]
    have e0 : b0 / 4 * 4 + b0 % 4 * 16 / 16 = b0 := by omega
    rw [e0]
  | case3 b0 b1 =>
    have h0 : b0 < 256 := hl b0 (by simp)
    have h1 : b1 < 256 := hl b1 (by simp)
    rw [show b64EncodeChunks alpha [b0, b1] =
      [b64Char alpha (b0 / 4), b64Char alpha (b0 % 4 * 16 + b1 / 16),
       b64Char alpha (b1 % 16 * 4)] from rfl]
    simp only [b64DecodeNoPad,
      b64IndexOf_round alpha ha (b0 / 4) (by omega),
      b64IndexOf_round alpha ha (b0 % 4 * 16 + b1 / 16) (by omega),
      b64IndexOf_round alpha ha (b1 % 16 * 4) (by omega)]
    rw [if_pos (by omega)]
    have e0 : b0 / 4 * 4 + (b0 % 4 * 16 + b1 / 16) / 16 = b0 := by omega
    have e1 : (b0 % 4 * 16 + b1 / 16) % 16 * 16 + b1 % 16 * 4 / 4 = b1 := by omega
    rw [e0, e1]
  | case4 b0 b1 b2 rest ih =>
    have h0 : b0 < 256 := hl b0 (by simp)
    have h1 : b1 < 256 := hl b1 (by simp)
    have h2 : b2 < 256 := hl b2 (by simp)
    have ihr := ih (fun b hb => hl b (by simp [hb]))
    rw [show b64EncodeChunks alpha (b0 :: b1 :: b2 :: rest) =
      b64Char alpha (b0 / 4) :: b64Char alpha (b0 % 4 * 16 + b1 / 16) ::
      b64Char alpha (b1 % 16 * 4 + b2 / 64) :: b64Char alpha (b2 % 64) ::
      b64EncodeChunks alpha rest from rfl]
    simp only [b64DecodeNoPad,
      b64IndexOf_round alpha ha (b0 / 4) (by omega),
      b64IndexOf_round alpha ha (b0 % 4 * 16 + b1 / 16) (by omega),
      b64IndexOf_round alpha ha (b1 % 16 * 4 + b2 / 64) (by omega),
      b64IndexOf_round alpha ha (b2 % 64) (by omega), ihr]
    have e0 : b0 / 4 * 4 + (b0 % 4 * 16 + b1 / 16) / 16 = b0 := by omega
    have e1 : (b0 % 4 * 16 + b1 / 16) % 16 * 16 + (b1 % 16 * 4 + b2 / 64) / 4 = b1 := by
      omega
    have e2 : (b1 % 16 * 4 + b2 / 64) % 4 * 64 + b2 % 64 = b2 := by omega
    rw [e0, e1, e2]

theorem padFree_of_len64 (alpha : List Char) (hlen : alpha.length = 64)
    (hfin : ∀ s : Fin 64, b64Char alpha s.val ≠ '=') : PadFreeAlpha alpha := by
  intro n
  by_cases h : n < 64
  · simpa using hfin ⟨n, h⟩
  · have hge : alpha.length ≤ n := by omega
    have hnone : alpha[n]? = none := List.getElem?_eq_none hge
    simp [b64Char, List.getD, hnone]

theorem padFree_std : PadFreeAlpha b64StdAlphabet :=
  padFree_of_len64 _ (by decide) (by decide)

theorem padFree_url : PadFreeAlpha b64UrlAlphabet :=
  padFree_of_len64 _ (by decide) (by decide)

theorem b64EncodeChunks_ne_pad (alpha : List Char) (hne : PadFreeAlpha alpha)
    (l : List Nat) : ∀ c ∈ b64EncodeChunks alpha l, c ≠ '=' := by
  induction l using b64EncodeChunks.induct alpha with
  | case1 => simp [b64EncodeChunks]
  | case2 b0 =>
    simp only [b64EncodeChunks, List.mem_cons, List.not_mem_nil, or_false,
      forall_eq_or_imp, forall_eq]
    exact ⟨hne _, hne _⟩
  | case3 b0 b1 =>
    simp only [b64EncodeChunks, List.mem_cons, List.not_mem_nil, or_false,
      forall_eq_or_imp, forall_eq]
    exact ⟨hne _, hne _, hne _⟩
  | case4 b0 b1 b2 rest ih =>
    simp only [b64EncodeChunks, List.mem_cons, forall_eq_or_imp]
    exact ⟨hne _, hne _, hne _, hne _, fun c hc => ih c hc⟩

theorem dropWhile_pad_replicate (k : Nat) (t : List Char) :
    List.dropWhile (fun c => c = '=') (List.replicate k '=' ++ t) =
    List.dropWhile (fun c => c = '=') t := by
  induction k with
  | zero => simp
  | succ k ih => simp [List.replicate_succ, List.dropWhile, ih]

theorem dropTrailingPad_of_ne (cs : List Char) (h : ∀ c ∈ cs, c ≠ '=') (k : Nat) :
    dropTrailingPad (cs ++ List.replicate k '=') = cs := by
  unfold dropTrailingPad
  rw [List.reverse_append, List.reverse_replicate, dropWhile_pad_replicate]
  cases hcs : cs.reverse with
  | nil =>
    have hnil : cs = [] := by simpa using congrArg List.reverse hcs
    simp [hnil]
  | cons c rest =>
    have hmem : c ∈ cs := by
      have hr : c ∈ cs.reverse := by rw [hcs]; simp
      simpa using hr
    rw [List.dropWhile_cons, if_neg (by simp [h c hmem]), ← hcs, List.reverse_reverse]

theorem b64EncodePad_length_mod4 (alpha : List Char) (l : List Nat) :
    (b64EncodePad alpha l).length % 4 = 0 := by
  simp only [b64EncodePad, List.length_append, List.length_replicate,
    b64EncodeChunks_length, b64PadCount]
  rcases h3 : l.length % 3 with _ | _ | n <;> simp <;> omega

theorem b64DecodePad_encode (alpha : List Char) (ha : GoodAlpha alpha)
    (hne : PadFreeAlpha alpha) (l : List Nat) (hl : ∀ b ∈ l, b < 256) :
    b64DecodePad alpha (b64EncodePad alpha l) = some l := by
  have hcore : dropTrailingPad (b64EncodePad alpha l) = b64EncodeChunks alpha l :=
    dropTrailingPad_of_ne _ (b64EncodeChunks_ne_pad alpha hne l) _
  unfold b64DecodePad
  rw [if_pos (b64EncodePad_length_mod4 alpha l)]
  simp only [hcore]
  rw [if_pos (by
    simp only [b64EncodePad, List.length_append, List.length_replicate, b64PadCount]
    rcases h3 : l.length % 3 with _ | _ | n <;> simp)]
  exact b64DecodeNoPad_encode alpha ha l hl

/-! ### Ideal AEAD lemmas -/

theorem dupBytes_length (p : List Nat) : (dupBytes p).length = 2 * p.length := by
  induction p with
  | nil => rfl
  | cons b rest ih => simp [dupBytes, ih]; omega

theorem dupBytes_mem (p : List Nat) (h : ∀ b ∈ p, b < 256) :
    ∀ b ∈ dupBytes p, b < 256 := by
  induction p with
  | nil => simp [dupBytes]
  | cons a rest ih =>
    simp only [dupBytes, List.mem_cons, forall_eq_or_imp]
    exact ⟨h a (by simp), h a (by simp),
      fun b hb => ih (fun x hx => h x (by simp [hx])) b hb⟩

theorem pairsDecode_dup (p : List Nat) : pairsDecode (dupBytes p) = some p := by
  induction p with
  | nil => rfl
  | cons b rest ih => simp [dupBytes, pairsDecode, ih]

theorem listSet_append_of_lt {α : Type} (x y : List α) (i : Nat) (v : α)
    (h : i < x.length) : (x ++ y).set i v = x.set i v ++ y := by
  induction x generalizing i with
  | nil => simp at h
  | cons a t ih =>
    cases i with
    | zero => simp
    | succ j =>
      show a :: (t ++ y).set j v = a :: (t.set j v ++ y)
      exact congrArg _ (ih j (by simpa using h))

theorem listSet_append_of_ge {α : Type} (x y : List α) (i : Nat) (v : α)
    (h : x.length ≤ i) : (x ++ y).set i v = x ++ y.set (i - x.length) v := by
  induction x generalizing i with
  | nil => simp
  | cons a t ih =>
    cases i with
    | zero => simp at h
    | succ j =>
      show a :: (t ++ y).set j v = a :: (t ++ y.set (j + 1 - (t.length + 1)) v)
      rw [Nat.succ_sub_succ]
      exact congrArg _ (ih j (by simpa using h))

theorem listSet_ne_of_ne (l : List Nat) (i v : Nat)
    (hi : i < l.length) (hv : v ≠ l.getD i 0) : l.set i v ≠ l := by
  intro he
  have h1 : (l.set i v).getD i 0 = v := by
    rw [List.getD_eq_getElem _ _ (by simpa using hi)]
    simp
  rw [he] at h1
  exact hv h1.symm

theorem flipByteAt_length (l : List Nat) (i : Nat) :
    (flipByteAt i l).length = l.length := by
  simp [flipByteAt]

theorem pairsDecode_set_ne (p : List Nat) (j v : Nat)
    (hj : j < (dupBytes p).length) (hv : v ≠ (dupBytes p).getD j 0) :
    pairsDecode ((dupBytes p).set j v) = none := by
  induction p generalizing j with
  | nil => simp [dupBytes] at hj
  | cons b rest ih =>
    match j with
    | 0 =>
      have hvb : v ≠ b := by simpa [dupBytes] using hv
      simp [dupBytes, pairsDecode, hvb]
    | 1 =>
      have hvb : v ≠ b := by simpa [dupBytes] using hv
      have hbv : ¬(b = v) := fun h => hvb h.symm
      simp [dupBytes, pairsDecode, hbv]
    | Nat.succ (Nat.succ j) =>
      have hj2 : j < (dupBytes rest).length := by
        simpa [dupBytes] using hj
      have hv2 : v ≠ (dupBytes rest).getD j 0 := by
        simpa [dupBytes] using hv
      simp [dupBytes, pairsDecode, ih j hj2 hv2]

theorem idealAead_correct : AeadCorrect idealAead := by
  intro k n p
  show idealOpn k n (idealSeal k n p) = some p
  have hassoc : idealSeal k n p = (k ++ n) ++ dupBytes p := by
    simp [idealSeal]
  have hlen : k.length + n.length = (k ++ n).length := (List.length_append k n).symm
  unfold idealOpn
  rw [hassoc, hlen, List.take_left, List.drop_left, if_pos rfl]
  exact pairsDecode_dup p

theorem idealAead_minLen : AeadMinLen idealAead := by
  intro k n p hk hn
  show 16 ≤ (idealSeal k n p).length
  simp [idealSeal, dupBytes_length, hk, hn]
  omega

theorem idealAead_bytes : AeadBytes idealAead := by
  intro k n p hk hn hp b hb
  have hb2 : b ∈ k ∨ b ∈ n ∨ b ∈ dupBytes p := by
    simpa [idealAead, idealSeal] using hb
  rcases hb2 with h | h | h
  · exact hk b h
  · exact hn b h
  · exact dupBytes_mem p hp b h

theorem idealAead_keyBinding : AeadKeyBinding idealAead := by
  intro k k' n p hlen hne
  show idealOpn k' n (idealSeal k n p) = none
  have hassoc : idealSeal k n p = (k ++ n) ++ dupBytes p := by
    simp [idealSeal]
  have hl : k'.length + n.length = (k ++ n).length := by
    simp [hlen]
  unfold idealOpn
  rw [hassoc, hl, List.take_left, if_neg]
  intro he
  exact hne (List.append_inj he hlen).1

theorem idealAead_nonceBinding : AeadNonceBinding idealAead := by
  intro k n n' p hlen hne
  show idealOpn k n' (idealSeal k n p) = none
  have hassoc : idealSeal k n p = (k ++ n) ++ dupBytes p := by
    simp [idealSeal]
  have hl : k.length + n'.length = (k ++ n).length := by
    simp [hlen]
  unfold idealOpn
  rw [hassoc, hl, List.take_left, if_neg]
  intro he
  exact hne (List.append_inj he rfl).2

theorem idealAead_tamper : AeadTamper idealAead := by
  intro k n p i hi
  have hassoc : idealAead.enc k n p = (k ++ n) ++ dupBytes p := by
    simp [idealAead, idealSeal]
  rw [hassoc] at hi ⊢
  show idealOpn k n (flipByteAt i ((k ++ n) ++ dupBytes p)) = none
  by_cases hcase : i < (k ++ n).length
  · -- the key-and-nonce header is corrupted, the header check fails
    have hgd : ((k ++ n) ++ dupBytes p).getD i 0 = (k ++ n).getD i 0 :=
      List.getD_append _ _ _ _ hcase
    have hset : flipByteAt i ((k ++ n) ++ dupBytes p) =
        (k ++ n).set i (255 - (k ++ n).getD i 0) ++ dupBytes p := by
      rw [flipByteAt, hgd, listSet_append_of_lt _ _ _ _ hcase]
    have htake : (((k ++ n).set i (255 - (k ++ n).getD i 0)) ++ dupBytes p).take
        (k.length + n.length) = (k ++ n).set i (255 - (k ++ n).getD i 0) :=
      List.take_left' (by simp)
    have hneq : (k ++ n).set i (255 - (k ++ n).getD i 0) ≠ k ++ n := by
      apply listSet_ne_of_ne _ _ _ hcase
      omega
    unfold idealOpn
    rw [hset, htake, if_neg hneq]
  · -- a doubled plaintext byte is corrupted, the pair check fails
    have hge : (k ++ n).length ≤ i := le_of_not_lt hcase
    have hgd : ((k ++ n) ++ dupBytes p).getD i 0 =
        (dupBytes p).getD (i - (k ++ n).length) 0 :=
      List.getD_append_right _ _ _ _ hge
    have hset : flipByteAt i ((k ++ n) ++ dupBytes p) =
        (k ++ n) ++ (dupBytes p).set (i - (k ++ n).length)
          (255 - (dupBytes p).getD (i - (k ++ n).length) 0) := by
      rw [flipByteAt, hgd, listSet_append_of_ge _ _ _ _ hge]
    have htake : ((k ++ n) ++ (dupBytes p).set (i - (k ++ n).length)
        (255 - (dupBytes p).getD (i - (k ++ n).length) 0)).take
        (k.length + n.length) = k ++ n :=
      List.take_left' (by simp)
    have hdrop : ((k ++ n) ++ (dupBytes p).set (i - (k ++ n).length)
        (255 - (dupBytes p).getD (i - (k ++ n).length) 0)).drop
        (k.length + n.length) = (dupBytes p).set (i - (k ++ n).length)
        (255 - (dupBytes p).getD (i - (k ++ n).length) 0) :=
      List.drop_left' (by simp)
    have hj : i - (k ++ n).length < (dupBytes p).length := by
      have := List.length_append (k ++ n) (dupBytes p)
      omega
    unfold idealOpn
    rw [hset, htake, hdrop, if_pos rfl]
    apply pairsDecode_set_ne _ _ _ hj
    omega

/-! ### Cookie cipher theorems -/

theorem cmDecrypt_payload {α : Type} (A : AeadScheme) (C : SerCodec α)
    (key payload : List Nat) (hb : ∀ b ∈ payload, b < 256)
    (h28 : ¬ payload.length < 28) :
    cmDecrypt A C key (b64EncodePad b64StdAlphabet payload) =
      match A.dec key (payload.take 12) (payload.drop 12) with
      | none => .error .DecryptionError
      | some plaintext =>
        match C.deser plaintext with
        | none => .error .SerializationError
        | some data => .ok data := by
  unfold cmDecrypt
  rw [b64DecodePad_encode _ goodAlpha_std padFree_std _ hb]
  simp only [h28, if_false]

/-- C7: for every serializable plaintext and 32-byte key, decrypt inverts
encrypt; decryption under any other 32-byte key fails (with the generic
decryption error); and flipping any single byte of the decoded encrypted
payload makes decryption fail.  The AEAD cipher (AES-256-GCM) enters through
its contract hypotheses, realised exactly by the executable ideal scheme of
the witness. -/
theorem c7_cookie_cipher_roundtrip_and_tamper {α : Type} (A : AeadScheme)
    (C : SerCodec α) (k1 k2 nonce : List Nat) (data : α)
    (hA1 : AeadCorrect A) (hA2 : AeadMinLen A) (hA3 : AeadBytes A)
    (hA4 : AeadKeyBinding A) (hA5 : AeadNonceBinding A) (hA6 : AeadTamper A)
    (hk1len : k1.length = 32) (hk2len : k2.length = 32) (hnlen : nonce.length = 12)
    (hk1b : ∀ b ∈ k1, b < 256) (hnb : ∀ b ∈ nonce, b < 256)
    (hserb : ∀ b ∈ C.ser data, b < 256)
    (hround : C.deser (C.ser data) = some data) :
    cmDecrypt A C k1 (cmEncrypt A C k1 nonce data) = .ok data ∧
    (k1 ≠ k2 → cmDecrypt A C k2 (cmEncrypt A C k1 nonce data) =
      .error .DecryptionError) ∧
    (∀ i, i < (nonce ++ A.enc k1 nonce (C.ser data)).length →
      cmDecrypt A C k1 (b64EncodePad b64StdAlphabet
        (flipByteAt i (nonce ++ A.enc k1 nonce (C.ser data)))) =
        .error .DecryptionError) := by
  have hencb : ∀ b ∈ A.enc k1 nonce (C.ser data), b < 256 :=
    hA3 k1 nonce (C.ser data) hk1b hnb hserb
  have hpb : ∀ b ∈ nonce ++ A.enc k1 nonce (C.ser data), b < 256 := by
    intro b hb
    rcases List.mem_append.mp hb with h | h
    · exact hnb b h
    · exact hencb b h
  have hmin : 16 ≤ (A.enc k1 nonce (C.ser data)).length :=
    hA2 k1 nonce (C.ser data) hk1len hnlen
  have hplen : (nonce ++ A.enc k1 nonce (C.ser data)).length =
      12 + (A.enc k1 nonce (C.ser data)).length := by
    simp [hnlen]
  have h28 : ¬ (nonce ++ A.enc k1 nonce (C.ser data)).length < 28 := by omega
  have htake : (nonce ++ A.enc k1 nonce (C.ser data)).take 12 = nonce :=
    List.take_left' hnlen
  have hdrop : (nonce ++ A.enc k1 nonce (C.ser data)).drop 12 =
      A.enc k1 nonce (C.ser data) :=
    List.drop_left' hnlen
  refine ⟨?_, ?_, ?_⟩
  · show cmDecrypt A C k1 (b64EncodePad b64StdAlphabet
      (nonce ++ A.enc k1 nonce (C.ser data))) = .ok data
    rw [cmDecrypt_payload A C k1 _ hpb h28, htake, hdrop,
      hA1 k1 nonce (C.ser data)]
    simp [hround]
  · intro hne
    show cmDecrypt A C k2 (b64EncodePad b64StdAlphabet
      (nonce ++ A.enc k1 nonce (C.ser data))) = .error .DecryptionError
    rw [cmDecrypt_payload A C k2 _ hpb h28, htake, hdrop,
      hA4 k1 k2 nonce (C.ser data) (by omega) hne]
  · intro i hi
    have hflipb : ∀ b ∈ flipByteAt i (nonce ++ A.enc k1 nonce (C.ser data)), b < 256 := by
      intro b hb
      rcases List.mem_or_eq_of_mem_set hb with h | h
      · exact hpb b h
      · omega
    have hfliplen : ¬ (flipByteAt i (nonce ++ A.enc k1 nonce (C.ser data))).length < 28 := by
      rw [flipByteAt_length]
      omega
    rw [cmDecrypt_payload A C k1 _ hflipb hfliplen]
    by_cases hcase : i < 12
    · -- the nonce prefix is corrupted
      have hgd : (nonce ++ A.enc k1 nonce (C.ser data)).getD i 0 = nonce.getD i 0 :=
        List.getD_append _ _ _ _ (by omega)
      have hset : flipByteAt i (nonce ++ A.enc k1 nonce (C.ser data)) =
          nonce.set i (255 - nonce.getD i 0) ++ A.enc k1 nonce (C.ser data) := by
        rw [flipByteAt, hgd, listSet_append_of_lt _ _ _ _ (by omega)]
      have htake2 : (nonce.set i (255 - nonce.getD i 0) ++
          A.enc k1 nonce (C.ser data)).take 12 = nonce.set i (255 - nonce.getD i 0) :=
        List.take_left' (by simp [hnlen])
      have hdrop2 : (nonce.set i (255 - nonce.getD i 0) ++
          A.enc k1 nonce (C.ser data)).drop 12 = A.enc k1 nonce (C.ser data) :=
        List.drop_left' (by simp [hnlen])
      have hnne : nonce.set i (255 - nonce.getD i 0) ≠ nonce := by
        apply listSet_ne_of_ne _ _ _ (by omega)
        omega
      rw [hset, htake2, hdrop2,
        hA5 k1 nonce (nonce.set i (255 - nonce.getD i 0)) (C.ser data)
          (by simp) (fun h => hnne h.symm)]
    · -- the ciphertext-and-tag part is corrupted
      have hgd : (nonce ++ A.enc k1 nonce (C.ser data)).getD i 0 =
          (A.enc k1 nonce (C.ser data)).getD (i - 12) 0 := by
        have := List.getD_append_right nonce (A.enc k1 nonce (C.ser data)) 0 i
          (by omega)
        rw [this, hnlen]
      have hset : flipByteAt i (nonce ++ A.enc k1 nonce (C.ser data)) =
          nonce ++ flipByteAt (i - 12) (A.enc k1 nonce (C.ser data)) := by
        rw [flipByteAt, hgd, listSet_append_of_ge _ _ _ _ (by omega), hnlen]
        rfl
      have htake2 : (nonce ++ flipByteAt (i - 12) (A.enc k1 nonce (C.ser data))).take 12 =
          nonce := List.take_left' hnlen
      have hdrop2 : (nonce ++ flipByteAt (i - 12) (A.enc k1 nonce (C.ser data))).drop 12 =
          flipByteAt (i - 12) (A.enc k1 nonce (C.ser data)) :=
        List.drop_left' hnlen
      rw [hset, htake2, hdrop2,
        hA6 k1 nonce (C.ser data) (i - 12) (by omega)]

/-! ### Claim theorems: cookie errors, PKCE, nonces, code storage -/

/-- C4 counterexample: `CookieManager::decrypt` does not return one
undifferentiated error — malformed base64, a too-short payload and an
authentication failure produce three pairwise distinct `CookieError`
values. -/
theorem c4_counterexample :
    cmDecrypt idealAead natIdCodec testKey "not!valid@base64#".toList =
      .error .Base64Error ∧
    cmDecrypt idealAead natIdCodec testKey
      (b64EncodePad b64StdAlphabet (List.replicate 8 0)) = .error .InvalidFormat ∧
    cmDecrypt idealAead natIdCodec testKey
      (b64EncodePad b64StdAlphabet (flipByteAt 20
        (testNonce ++ idealAead.enc testKey testNonce [5, 6, 7]))) =
      .error .DecryptionError ∧
    (CookieError.Base64Error ≠ CookieError.InvalidFormat ∧
     CookieError.Base64Error ≠ CookieError.DecryptionError ∧
     CookieError.InvalidFormat ≠ CookieError.DecryptionError) := by
  decide

/-- C4 amended: decrypt reports each failure through its own `CookieError`
variant — `Base64Error` for malformed base64, `InvalidFormat` for a decoded
payload shorter than 28 bytes, `DecryptionError` for an AEAD
authentication/decryption failure (wrong key, wrong nonce, or tampering), and
`SerializationError` for an undeserializable plaintext — rather than one
undifferentiated error. -/
theorem c4_amended_decrypt_distinguishes_causes {α : Type} (A : AeadScheme)
    (C : SerCodec α) (key : List Nat) (s : List Char) :
    (b64DecodePad b64StdAlphabet s = none →
      cmDecrypt A C key s = .error .Base64Error) ∧
    (∀ bs, b64DecodePad b64StdAlphabet s = some bs → bs.length < 28 →
      cmDecrypt A C key s = .error .InvalidFormat) ∧
    (∀ bs, b64DecodePad b64StdAlphabet s = some bs → ¬ bs.length < 28 →
      A.dec key (bs.take 12) (bs.drop 12) = none →
      cmDecrypt A C key s = .error .DecryptionError) ∧
    (∀ bs pt, b64DecodePad b64StdAlphabet s = some bs → ¬ bs.length < 28 →
      A.dec key (bs.take 12) (bs.drop 12) = some pt → C.deser pt = none →
      cmDecrypt A C key s = .error .SerializationError) := by
  refine ⟨?_, ?_, ?_, ?_⟩
  · intro h
    unfold cmDecrypt
    rw [h]
  · intro bs h h28
    unfold cmDecrypt
    rw [h]
    simp [h28]
  · intro bs h h28 hdec
    unfold cmDecrypt
    rw [h]
    simp [h28, hdec]
  · intro bs pt h h28 hdec hdeser
    unfold cmDecrypt
    rw [h]
    simp [h28, hdec, hdeser]

/-- Witness for C4's amended theorem at concrete failing inputs. -/
theorem c4_witness :
    cmDecrypt idealAead natIdCodec testKey2 "AAAA".toList = .error .InvalidFormat := by
  obtain ⟨h1, h2, h3, h4⟩ :=
    c4_amended_decrypt_distinguishes_causes idealAead natIdCodec testKey2 "AAAA".toList
  exact h2 [0, 0, 0] (by decide) (by decide)

/-- C9: every PKCE pair consists of the base64url (no padding) encoding of the
64 random verifier bytes, of fixed length 86, and the base64url encoding of
SHA-256 of the verifier string, of fixed length 43 (SHA-256 enters through its
32-byte-output contract). -/
theorem c9_pkce_pair_shape (sha256 : List Nat → List Nat)
    (verifier_bytes : List Nat) (h64 : verifier_bytes.length = 64)
    (hsha : ∀ s, (sha256 s).length = 32) :
    (generate_pkce_pair sha256 verifier_bytes).verifier =
      b64EncodeChunks b64UrlAlphabet verifier_bytes ∧
    (generate_pkce_pair sha256 verifier_bytes).verifier.length = 86 ∧
    (generate_pkce_pair sha256 verifier_bytes).challenge =
      b64EncodeChunks b64UrlAlphabet (sha256
        ((generate_pkce_pair sha256 verifier_bytes).verifier.map Char.toNat)) ∧
    (generate_pkce_pair sha256 verifier_bytes).challenge.length = 43 := by
  refine ⟨rfl, ?_, rfl, ?_⟩
  · show (b64EncodeChunks b64UrlAlphabet verifier_bytes).length = 86
    rw [b64EncodeChunks_length, h64]
  · show (b64EncodeChunks b64UrlAlphabet (sha256 _)).length = 43
    rw [b64EncodeChunks_length, hsha]

/-- Witness for C9 at concrete verifier bytes and a concrete 32-byte hash. -/
theorem c9_witness :
    (generate_pkce_pair (fun _ => List.replicate 32 0)
      (List.replicate 64 0)).verifier.length = 86 ∧
    (generate_pkce_pair (fun _ => List.replicate 32 0)
      (List.replicate 64 0)).challenge.length = 43 := by
  obtain ⟨_, h2, _, h4⟩ := c9_pkce_pair_shape (fun _ => List.replicate 32 0)
    (List.replicate 64 0) (by simp) (fun s => by simp)
  exact ⟨h2, h4⟩

/-- C3 (code bug in the source): `TokenStore::encrypt` builds a fresh
`CounterNonceSequence::new()` on every call, so every encryption — hence every
`save` — uses the same all-zero nonce; nonces never differ between two calls,
and the (key, nonce) pair is reused whenever the key is fixed. -/
theorem c3_token_store_zero_nonce (A : AeadScheme) (k1 d1 k2 d2 : List Nat) :
    (tokenStoreEncrypt A k1 d1).2 = List.replicate 12 0 ∧
    (tokenStoreEncrypt A k1 d1).2 = (tokenStoreEncrypt A k2 d2).2 := by
  exact ⟨rfl, rfl⟩

/-- C10: `CodeStorage::take` removes the entry unconditionally — after a
`take` on a present code the map no longer contains it, and an expired entry
is removed even though `take` returns nothing. -/
theorem c10_take_removes_unconditionally (m : CodeStore) (code : String)
    (now : Int) (p : PendingCodeExchange) (hp : m code = some p) :
    (CodeStorage.take m code now).2 code = none ∧
    (now > p.expires_at → (CodeStorage.take m code now).1 = none) := by
  unfold CodeStorage.take
  rw [hp]
  by_cases h : now > p.expires_at
  · simp [h]
  · simp [h]

/-- Witness for C10: a concrete expired entry is removed and not returned. -/
theorem c10_witness :
    (CodeStorage.take (CodeStorage.store emptyCodeStore "c"
      ⟨"c", "v", 100⟩) "c" 200).2 "c" = none ∧
    (CodeStorage.take (CodeStorage.store emptyCodeStore "c"
      ⟨"c", "v", 100⟩) "c" 200).1 = none := by
  obtain ⟨h1, h2⟩ := c10_take_removes_unconditionally
    (CodeStorage.store emptyCodeStore "c" ⟨"c", "v", 100⟩) "c" 200
    ⟨"c", "v", 100⟩ (by decide)
  exact ⟨h1, h2 (by decide)⟩

/-! ### Claim theorems: cookie cipher witness, callback, token endpoint -/

/-- Witness for C7 at concrete keys, nonce and plaintext, with the cipher
instantiated by the executable ideal AEAD. -/
theorem c7_witness :
    cmDecrypt idealAead natIdCodec testKey
      (cmEncrypt idealAead natIdCodec testKey testNonce [1, 2, 3]) =
      .ok [1, 2, 3] ∧
    cmDecrypt idealAead natIdCodec testKey2
      (cmEncrypt idealAead natIdCodec testKey testNonce [1, 2, 3]) =
      .error .DecryptionError ∧
    cmDecrypt idealAead natIdCodec testKey
      (b64EncodePad b64StdAlphabet (flipByteAt 20
        (testNonce ++ idealAead.enc testKey testNonce [1, 2, 3]))) =
      .error .DecryptionError := by
  obtain ⟨h1, h2, h3⟩ :=
    c7_cookie_cipher_roundtrip_and_tamper idealAead natIdCodec testKey testKey2
      testNonce [1, 2, 3] idealAead_correct idealAead_minLen idealAead_bytes
      idealAead_keyBinding idealAead_nonceBinding idealAead_tamper
      (by decide) (by decide) (by decide) (by decide) (by decide) (by decide) rfl
  exact ⟨h1, h2 (by decide), h3 20 (by decide)⟩

/-- C1 counterexample: a callback that passes state validation redirects the
caller with the upstream provider's code itself (`upstreamXYZ` appears
verbatim as the `code` query parameter), so the code handed to the caller is
not a freshly minted proxy code distinct from the upstream one. -/
theorem c1_counterexample :
    callback_handler idealAead stateCodec pendingCodec testKey testNonce 100
      ⟨some "upstreamXYZ", some "n1", none, none⟩
      (some (cmEncrypt idealAead stateCodec testKey testNonce
        ⟨"n1", "v1", "https://app/cb"⟩)) =
      .ok ⟨cmEncrypt idealAead pendingCodec testKey testNonce
             ⟨"upstreamXYZ", "v1", 400⟩,
           "https://app/cb?code=upstreamXYZ&state=n1"⟩ := by
  decide

/-- C1 amended: for every callback that passes state validation, the redirect
to the original caller's redirect_uri carries the upstream provider's
authorization code verbatim (`?code=<upstream code>&state=<state>`), and the
same upstream code is stored in the pending-code cookie — the proxy does not
mint a fresh code. -/
theorem c1_amended_callback_passes_upstream_code (A : AeadScheme)
    (CS : SerCodec OAuthState) (CP : SerCodec PendingCodeExchange)
    (key pendingNonce : List Nat) (now : Int) (params : CallbackParams)
    (sc : List Char) (ost : OAuthState) (sp c : String)
    (herr : params.error = none)
    (hdec : cmDecrypt A CS key sc = .ok ost)
    (hsp : params.state = some sp) (hmatch : sp = ost.state)
    (hcode : params.code = some c) :
    callback_handler A CS CP key pendingNonce now params (some sc) =
      .ok ⟨cmEncrypt A CP key pendingNonce ⟨c, ost.code_verifier, now + 300⟩,
           ost.redirect_uri ++ "?code=" ++ c ++ "&state=" ++ sp⟩ := by
  unfold callback_handler
  simp only [herr, hdec, hsp, hcode]
  rw [if_neg (by simp [hmatch])]

/-- Witness for C1's amended theorem at a concrete valid callback. -/
theorem c1_witness :
    callback_handler idealAead stateCodec pendingCodec testKey testNonce 100
      ⟨some "up1", some "n1", none, none⟩
      (some (cmEncrypt idealAead stateCodec testKey testNonce
        ⟨"n1", "v1", "https://app/cb"⟩)) =
      .ok ⟨cmEncrypt idealAead pendingCodec testKey testNonce
             ⟨"up1", "v1", 400⟩,
           "https://app/cb?code=up1&state=n1"⟩ := by
  have h := c1_amended_callback_passes_upstream_code idealAead stateCodec
    pendingCodec testKey testNonce 100 ⟨some "up1", some "n1", none, none⟩
    (cmEncrypt idealAead stateCodec testKey testNonce
      ⟨"n1", "v1", "https://app/cb"⟩)
    ⟨"n1", "v1", "https://app/cb"⟩ "n1" "up1" rfl (by decide) rfl rfl rfl
  exact h

/-- C6: for callbacks without an upstream error parameter, a missing state
cookie, an undecryptable state cookie, and a state query parameter different
from the decrypted cookie's nonce are each rejected with an invalid-state
error — regardless of the `code` parameter — and no pending code exchange is
created (the handler returns an error, and only the success branch builds the
pending-code cookie). -/
theorem c6_callback_fails_closed (A : AeadScheme) (CS : SerCodec OAuthState)
    (CP : SerCodec PendingCodeExchange) (key pendingNonce : List Nat)
    (now : Int) (params : CallbackParams) :
    (params.error = none →
      callback_handler A CS CP key pendingNonce now params none =
        .error (.InvalidState "State cookie not found")) ∧
    (∀ sc e, params.error = none → cmDecrypt A CS key sc = .error e →
      callback_handler A CS CP key pendingNonce now params (some sc) =
        .error (.InvalidState "Failed to decrypt state")) ∧
    (∀ sc ost sp, params.error = none → cmDecrypt A CS key sc = .ok ost →
      params.state = some sp → sp ≠ ost.state →
      callback_handler A CS CP key pendingNonce now params (some sc) =
        .error (.InvalidState "State parameter mismatch")) := by
  refine ⟨?_, ?_, ?_⟩
  · intro herr
    unfold callback_handler
    simp only [herr]
  · intro sc e herr hdec
    unfold callback_handler
    simp only [herr, hdec]
  · intro sc ost sp herr hdec hsp hne
    unfold callback_handler
    simp only [herr, hdec, hsp]
    rw [if_pos hne]

/-- Witness for C6: the three rejection branches at concrete inputs (missing
cookie, garbage cookie, wrong state parameter) — each with a valid-looking
`code` present. -/
theorem c6_witness :
    callback_handler idealAead stateCodec pendingCodec testKey testNonce 100
      ⟨some "up1", some "n1", none, none⟩ none =
      .error (.InvalidState "State cookie not found") ∧
    callback_handler idealAead stateCodec pendingCodec testKey testNonce 100
      ⟨some "up1", some "n1", none, none⟩ (some "!!".toList) =
      .error (.InvalidState "Failed to decrypt state") ∧
    callback_handler idealAead stateCodec pendingCodec testKey testNonce 100
      ⟨some "up1", some "evil", none, none⟩
      (some (cmEncrypt idealAead stateCodec testKey testNonce
        ⟨"n1", "v1", "https://app/cb"⟩)) =
      .error (.InvalidState "State parameter mismatch") := by
  obtain ⟨h1, h2, h3⟩ := c6_callback_fails_closed idealAead stateCodec
    pendingCodec testKey testNonce 100 ⟨some "up1", some "n1", none, none⟩
  obtain ⟨_, _, h3b⟩ := c6_callback_fails_closed idealAead stateCodec
    pendingCodec testKey testNonce 100 ⟨some "up1", some "evil", none, none⟩
  exact ⟨h1 rfl, h2 "!!".toList .Base64Error rfl (by decide),
    h3b (cmEncrypt idealAead stateCodec testKey testNonce
      ⟨"n1", "v1", "https://app/cb"⟩) ⟨"n1", "v1", "https://app/cb"⟩ "evil"
      rfl (by decide) rfl (by decide)⟩

/-- C2 counterexample: the encrypted-cookie representation of the pending code
used by the token endpoint is not single-use — the very same pending-code
cookie is accepted by two successive token requests (the handler consults no
store and invalidates nothing). -/
theorem c2_counterexample :
    token_handler idealAead pendingCodec testKey (fun _ => none) "manual" none
      (some (cmEncrypt idealAead pendingCodec testKey testNonce
        ⟨"code1", "ver1", 1000⟩))
      ⟨"authorization_code", "code1", "https://app/cb", "manual", none, none⟩ 10 =
      .ok ("code1", "ver1") ∧
    token_handler idealAead pendingCodec testKey (fun _ => none) "manual" none
      (some (cmEncrypt idealAead pendingCodec testKey testNonce
        ⟨"code1", "ver1", 1000⟩))
      ⟨"authorization_code", "code1", "https://app/cb", "manual", none, none⟩ 20 =
      .ok ("code1", "ver1") := by
  exact ⟨by decide, by decide⟩

/-- C2 amended: the in-memory map representation is single-use — the first
`take` of a fresh code returns the stored exchange and every later `take` of
the same code returns nothing — while the encrypted-cookie representation
used by the token endpoint guarantees only bounded lifetime: an expired
pending-code cookie is rejected (single use is not enforced there;
see the counterexample). -/
theorem c2_amended_single_use (m : CodeStore) (code : String) (now now2 : Int)
    (p : PendingCodeExchange) (hp : m code = some p)
    (hfresh : ¬ now > p.expires_at)
    (A : AeadScheme) (CP : SerCodec PendingCodeExchange) (key : List Nat)
    (registry : ClientRegistry) (config_client_id : String)
    (authorization : Option String) (pc : List Char) (req : TokenRequest)
    (t : Int) (pending : PendingCodeExchange)
    (hgrant : req.grant_type = "authorization_code")
    (hclient : (match extract_client_secret authorization req with
      | some secret => registryValidate registry req.client_id secret
      | none => req.client_id == config_client_id) = true)
    (hdec : cmDecrypt A CP key pc = .ok pending)
    (hexp : t > pending.expires_at) :
    CodeStorage.take m code now = (some p,
      (CodeStorage.take m code now).2) ∧
    (CodeStorage.take (CodeStorage.take m code now).2 code now2).1 = none ∧
    token_handler A CP key registry config_client_id authorization (some pc)
      req t = .error (.Unauthorized "Authorization code has expired") := by
  refine ⟨?_, ?_, ?_⟩
  · simp [CodeStorage.take, hp, hfresh]
  · simp [CodeStorage.take, hp, hfresh]
  · unfold token_handler
    rw [if_neg (by simp [hgrant])]
    simp only [hclient, Bool.not_true, Bool.false_eq_true, if_false]
    simp only [hdec]
    rw [if_pos hexp]

/-- Witness for C2's amended theorem: a concrete fresh in-memory exchange is
taken once and gone afterwards, and a concrete expired pending-code cookie is
rejected by the token endpoint. -/
theorem c2_witness :
    CodeStorage.take (CodeStorage.store emptyCodeStore "c" ⟨"c", "v", 500⟩)
      "c" 100 = (some ⟨"c", "v", 500⟩,
        (CodeStorage.take (CodeStorage.store emptyCodeStore "c"
          ⟨"c", "v", 500⟩) "c" 100).2) ∧
    (CodeStorage.take (CodeStorage.take (CodeStorage.store emptyCodeStore "c"
      ⟨"c", "v", 500⟩) "c" 100).2 "c" 150).1 = none ∧
    token_handler idealAead pendingCodec testKey (fun _ => none) "manual" none
      (some (cmEncrypt idealAead pendingCodec testKey testNonce
        ⟨"code1", "ver1", 1000⟩))
      ⟨"authorization_code", "code1", "https://app/cb", "manual", none, none⟩
      2000 = .error (.Unauthorized "Authorization code has expired") := by
  obtain ⟨h1, h2, h3⟩ := c2_amended_single_use
    (CodeStorage.store emptyCodeStore "c" ⟨"c", "v", 500⟩) "c" 100 150
    ⟨"c", "v", 500⟩ (by decide) (by decide)
    idealAead pendingCodec testKey (fun _ => none) "manual" none
    (cmEncrypt idealAead pendingCodec testKey testNonce ⟨"code1", "ver1", 1000⟩)
    ⟨"authorization_code", "code1", "https://app/cb", "manual", none, none⟩
    2000 ⟨"code1", "ver1", 1000⟩ rfl (by decide) (by decide) (by decide)
  exact ⟨h1, h2, h3⟩

/-- C5 (code bug in the source): a client secret sent in a standard RFC 7617
Basic header — base64 **with padding**, here `Basic YzE6czE=` encoding
`c1:s1` — is not recognized: `extract_client_secret` decodes the header with
`URL_SAFE_NO_PAD`, which rejects the `=` padding, so the secret is treated as
absent and a DCR-registered client is rejected as unauthorized, while the
RFC 7617 reference extraction recovers the secret `s1` that the registry
accepts. -/
theorem c5_basic_auth_padding_bug :
    extract_client_secret (some "Basic YzE6czE=")
      ⟨"authorization_code", "code1", "https://app/cb", "c1", none, none⟩ =
      none ∧
    specBasicSecret "Basic YzE6czE=" = some "s1" ∧
    registryValidate c5Registry "c1" "s1" = true ∧
    token_handler idealAead pendingCodec testKey c5Registry "other"
      (some "Basic YzE6czE=")
      (some (cmEncrypt idealAead pendingCodec testKey testNonce
        ⟨"code1", "ver1", 1000⟩))
      ⟨"authorization_code", "code1", "https://app/cb", "c1", none, none⟩ 10 =
      .error (.Unauthorized "Invalid client credentials") := by
  refine ⟨by decide, by decide, by decide, by decide⟩

/-! ### Bearer validator lemmas and C8 -/

theorem lruErase_cons_self (l : List (String × CachedUserInfo)) (token : String)
    (ui : CachedUserInfo) : lruErase ((token, ui) :: l) token = lruErase l token := by
  simp [lruErase]

theorem lruErase_idem (l : List (String × CachedUserInfo)) (token : String) :
    lruErase (lruErase l token) token = lruErase l token := by
  unfold lruErase
  rw [List.filter_filter]
  congr 1
  funext e
  exact Bool.and_self _

theorem lruLookup_cons_self (l : List (String × CachedUserInfo)) (token : String)
    (ui : CachedUserInfo) : lruLookup ((token, ui) :: l) token = some ui := by
  simp [lruLookup, List.find?]

theorem lruLookup_put_self (c : List (String × CachedUserInfo)) (token : String)
    (v : CachedUserInfo) : lruLookup (lruPut c token v) token = some v := by
  unfold lruPut
  split_ifs <;> exact lruLookup_cons_self _ _ _

theorem is_expired_false_of (u : CachedUserInfo) (now : Nat)
    (hca : u.cached_at ≤ now) (hfresh : now - u.cached_at ≤ 300)
    (hnow : now < 2 ^ 64) : u.is_expired now = false := by
  simp only [CachedUserInfo.is_expired, u64Sub, gt_iff_lt,
    decide_eq_false_iff_not, not_lt]
  omega

theorem is_expired_true_of (u : CachedUserInfo) (now : Nat)
    (hca : u.cached_at ≤ now) (hstale : now - u.cached_at > 300)
    (_hnow : now < 2 ^ 64) : u.is_expired now = true := by
  simp only [CachedUserInfo.is_expired, u64Sub, gt_iff_lt, decide_eq_true_eq]
  omega

theorem validate_with_miro_cached_at (up : UpstreamResult) (now : Nat)
    (ui : CachedUserInfo) (h : validate_with_miro up now = .ok ui) :
    ui.cached_at = now := by
  cases up <;> simp [validate_with_miro] at h
  rw [← h]

theorem validate_token_fresh_hit (cache : List (String × CachedUserInfo))
    (token : String) (now : Nat) (up : UpstreamResult) (ui : CachedUserInfo)
    (hlk : lruLookup cache token = some ui) (hca : ui.cached_at ≤ now)
    (hfresh : now - ui.cached_at ≤ 300) (hnow : now < 2 ^ 64) :
    validate_token cache token now up =
      (.ok ui, (token, ui) :: lruErase cache token, false) := by
  unfold validate_token lruGet
  simp only [hlk, is_expired_false_of ui now hca hfresh hnow, Bool.not_false,
    if_true]

theorem validate_token_stale (cache : List (String × CachedUserInfo))
    (token : String) (now : Nat) (up : UpstreamResult) (ui : CachedUserInfo)
    (hlk : lruLookup cache token = some ui) (hca : ui.cached_at ≤ now)
    (hstale : now - ui.cached_at > 300) (hnow : now < 2 ^ 64) :
    validate_token cache token now up =
      (match validate_with_miro up now with
       | .error e => (.error e, lruErase cache token, true)
       | .ok u2 => (.ok u2, lruPut (lruErase cache token) token u2, true)) := by
  unfold validate_token lruGet
  simp only [hlk, is_expired_true_of ui now hca hstale hnow, Bool.not_true,
    Bool.false_eq_true, if_false]
  rw [lruErase_cons_self, lruErase_idem]

theorem validate_token_miss (cache : List (String × CachedUserInfo))
    (token : String) (now : Nat) (up : UpstreamResult)
    (hlk : lruLookup cache token = none) :
    validate_token cache token now up =
      (match validate_with_miro up now with
       | .error e => (.error e, cache, true)
       | .ok u2 => (.ok u2, lruPut cache token u2, true)) := by
  unfold validate_token lruGet
  simp only [hlk]

/-- C8: a cached identity younger than the 5-minute TTL is returned without
any upstream call; a cached identity older than the TTL is evicted and the
upstream introspection endpoint is called again; and after a cache miss whose
upstream call succeeds, any repeated validation of that token within the TTL
is answered from the cache with no upstream call. -/
theorem c8_validator_cache_ttl (cache : List (String × CachedUserInfo))
    (token : String) (now now2 : Nat) (up up2 : UpstreamResult)
    (ui ui1 : CachedUserInfo) :
    (lruLookup cache token = some ui → ui.cached_at ≤ now →
      now - ui.cached_at ≤ 300 → now < 2 ^ 64 →
      validate_token cache token now up =
        (.ok ui, (token, ui) :: lruErase cache token, false)) ∧
    (lruLookup cache token = some ui → ui.cached_at ≤ now →
      now - ui.cached_at > 300 → now < 2 ^ 64 →
      (validate_token cache token now up).2.2 = true ∧
      (∀ e, validate_with_miro up now = .error e →
        validate_token cache token now up =
          (.error e, lruErase cache token, true)) ∧
      (∀ u2, validate_with_miro up now = .ok u2 →
        validate_token cache token now up =
          (.ok u2, lruPut (lruErase cache token) token u2, true))) ∧
    (lruLookup cache token = none → validate_with_miro up now = .ok ui1 →
      now ≤ now2 → now2 - now ≤ 300 → now2 < 2 ^ 64 →
      validate_token cache token now up =
        (.ok ui1, lruPut cache token ui1, true) ∧
      (validate_token (lruPut cache token ui1) token now2 up2).2.2 = false ∧
      (validate_token (lruPut cache token ui1) token now2 up2).1 = .ok ui1) := by
  refine ⟨?_, ?_, ?_⟩
  · intro hlk hca hfresh hnow
    exact validate_token_fresh_hit cache token now up ui hlk hca hfresh hnow
  · intro hlk hca hstale hnow
    have hst := validate_token_stale cache token now up ui hlk hca hstale hnow
    refine ⟨?_, ?_, ?_⟩
    · rw [hst]
      cases h : validate_with_miro up now <;> simp
    · intro e he
      rw [hst, he]
    · intro u2 hu2
      rw [hst, hu2]
  · intro hmiss hup hle hfresh2 hnow2
    have h1 := validate_token_miss cache token now up hmiss
    rw [hup] at h1
    have hca1 : ui1.cached_at = now := validate_with_miro_cached_at up now ui1 hup
    have h2 := validate_token_fresh_hit (lruPut cache token ui1) token now2 up2
      ui1 (lruLookup_put_self cache token ui1) (by omega) (by omega) hnow2
    exact ⟨h1, by rw [h2], by rw [h2]⟩

/-- Witness for C8: a concrete cache with one entry cached at time 50 —
fresh at time 100 (no upstream call), stale at time 400 (upstream called
again) — and a concrete miss-then-revalidate pair of calls whose second call
is a cache hit with no upstream call. -/
theorem c8_witness :
    validate_token [("t", ⟨"u1", "team1", ["boards:read"], 50⟩)] "t" 100
      UpstreamResult.unauthorized =
      (.ok ⟨"u1", "team1", ["boards:read"], 50⟩,
       [("t", ⟨"u1", "team1", ["boards:read"], 50⟩)], false) ∧
    (validate_token [("t", ⟨"u1", "team1", ["boards:read"], 50⟩)] "t" 400
      UpstreamResult.unauthorized).2.2 = true ∧
    validate_token [] "t" 100 (UpstreamResult.ok "u1" "team1" "a b") =
      (.ok ⟨"u1", "team1", ["a", "b"], 100⟩,
       lruPut [] "t" ⟨"u1", "team1", ["a", "b"], 100⟩, true) ∧
    (validate_token (lruPut [] "t" ⟨"u1", "team1", ["a", "b"], 100⟩) "t" 300
      UpstreamResult.unauthorized).2.2 = false := by
  obtain ⟨f1, _, _⟩ := c8_validator_cache_ttl
    [("t", ⟨"u1", "team1", ["boards:read"], 50⟩)] "t" 100 100
    UpstreamResult.unauthorized UpstreamResult.unauthorized
    ⟨"u1", "team1", ["boards:read"], 50⟩ ⟨"u1", "team1", ["boards:read"], 50⟩
  obtain ⟨_, g2, _⟩ := c8_validator_cache_ttl
    [("t", ⟨"u1", "team1", ["boards:read"], 50⟩)] "t" 400 400
    UpstreamResult.unauthorized UpstreamResult.unauthorized
    ⟨"u1", "team1", ["boards:read"], 50⟩ ⟨"u1", "team1", ["boards:read"], 50⟩
  obtain ⟨_, _, k3⟩ := c8_validator_cache_ttl [] "t" 100 300
    (UpstreamResult.ok "u1" "team1" "a b") UpstreamResult.unauthorized
    ⟨"u1", "team1", ["a", "b"], 100⟩ ⟨"u1", "team1", ["a", "b"], 100⟩
  have hf := f1 (by decide) (by decide) (by decide) (by decide)
  have hg := (g2 (by decide) (by decide) (by decide) (by decide)).1
  have hk := k3 (by decide) (by decide) (by decide) (by decide) (by decide)
  refine ⟨?_, hg, hk.1, hk.2.1⟩
  rw [hf]
  decide
